import Mathlib

/-!
# Overlord proxy: verified embedding of the request-lifecycle core

A shallow embedding, in Lean 4, of the parts of the overlord cache proxy
(Go) that the specification's checkable claims are about:

* the Redis RESP object model and the response-merge rules
  (`basic`, `join`, `count`, `ok`) from `proto/redis`;
* the Redis node connection's `WriteBatch` / `ReadBatch` / `Close`;
* the memcache node connection's closed-state checks;
* the buffered vectored writer (`lib/bufio.Writer`);
* the connection handler's encode loop and adaptive-concurrency reset;
* the `proto.MsgBatch` container.

Go pointers that may be nil are modelled as `Option`; Go slices as `List`;
byte strings as `List Nat`; machine integers as `Nat` (no arithmetic here
comes near an overflow boundary).  Functions that mutate a receiver are
modelled as functions returning the updated value.  Where a function's
behaviour depends on I/O (socket reads/writes) the outcome of each I/O
action is passed in explicitly, so every definition stays executable.

A few types of the `proto` package (`Message`, `Request`, `Response`) and
the newer `lib/bufio` reader methods (`Mark`, `AdvanceTo`, `Read`) are not
part of the source tree; the definitions that stand in for them are marked
`Modelled from the spec:` in their doc comments.
-/

namespace Overlord

/-! ## RESP object model (`proto/redis`, resp.go) -/

/-- RESP type byte `'+'`. -/
def respString : Nat := 43
/-- RESP type byte `'-'`. -/
def respError : Nat := 45
/-- RESP type byte `':'`. -/
def respInt : Nat := 58
/-- RESP type byte `'$'`. -/
def respBulk : Nat := 36
/-- RESP type byte `'*'`. -/
def respArray : Nat := 42

/-- A redis resp protocol item.  `data` is a nilable byte slice; `array`
is a nilable slice of nilable pointers to sub-items (Go `[]*resp`). -/
inductive resp : Type where
  | mk (rtype : Nat) (data : Option (List Nat)) (array : Option (List (Option resp))) : resp

/-- The `rtype` field. -/
def resp.rtype : resp → Nat
  | .mk t _ _ => t

/-- The `data` field. -/
def resp.data : resp → Option (List Nat)
  | .mk _ d _ => d

/-- The `array` field. -/
def resp.array : resp → Option (List (Option resp))
  | .mk _ _ a => a

/-- `newRespPlain` from the source. -/
def newRespPlain (rtype : Nat) (data : List Nat) : resp :=
  .mk rtype (some data) none

/-- `newRespString` from the source: a `'+'`-typed item carrying the bytes. -/
def newRespString (val : List Nat) : resp :=
  .mk respString (some val) none

/-- `newRespArrayWithCapcity` from the source: Go `make([]*resp, length)`
fills the slice with nil pointers. -/
def newRespArrayWithCapcity (length : Nat) : resp :=
  .mk respArray none (some (List.replicate length none))

/-- ASCII bytes of `strconv.Itoa` for a natural number. -/
def itoaBytes (val : Nat) : List Nat :=
  (Nat.toDigits 10 val).map Char.toNat

/-- `newRespInt` from the source.  NOTE: the source tags the result with
`respArray` (`'*'`), not `respInt` (`':'`): embedded as written. -/
def newRespInt (val : Nat) : resp :=
  .mk respArray (some (itoaBytes val)) none

/-- `(*resp).replace`: `r.array[pos] = newer`.  The stored value is a Go
`*resp`, hence an `Option resp` (it may be nil). -/
def resp.replace (r : resp) (pos : Nat) (newer : Option resp) : resp :=
  .mk r.rtype r.data (r.array.map (fun a => a.set pos newer))

/-- `(*resp).isNull` from the source. -/
def resp.isNull (r : resp) : Bool :=
  if r.rtype = respArray then r.array.isNone
  else if r.rtype = respBulk then r.data.isNone
  else false

/-- `(*resp).Len`: length of the `array` field (0 when nil). -/
def resp.Len (r : resp) : Nat :=
  (r.array.getD []).length

/-! ## Responses and the merge rules (`proto/redis`, response part) -/

/-- The redis merge strategy tag. -/
inductive MergeType : Type where
  | basic | join | count | ok
deriving DecidableEq

/-- Errors that the embedded fragments can produce. -/
inductive RErr : Type where
  /-- `ErrBadAssert`: a type assertion on a message's request failed. -/
  | badAssert
  /-- An encode error from `req.resp.encode`, with an identifying code. -/
  | enc (code : Nat)
  /-- An I/O error (socket read/write failure), with an identifying code. -/
  | ioFail (code : Nat)
  /-- `ErrClosed`: use after close. -/
  | closed
  /-- `io.EOF`. -/
  | eof
deriving DecidableEq

/-- `RResponse`: the redis response protocol type.  `respObj` is a
nilable pointer. -/
structure RResponse : Type where
  respObj : Option resp
  mergeType : MergeType

/-- Modelled from the spec: the dialect-independent `proto.Response`
(missing from the tree; §3 "a placeholder for the reply bytes plus … a
merge strategy tag", §7 error slot).  `proto_` is the result of the
`.(*RResponse)` type assertion on `Resp.Proto()`: `some` exactly when the
assertion succeeds.  `err` is the response's error slot (`Resp.Err()`). -/
structure PResponse : Type where
  proto_ : Option RResponse
  err : Option RErr

/-- Modelled from the spec: the slice element of `Merge`'s `subs`
argument, a `proto.Request` (missing from the tree) seen through the one
field the merge code reads, its response `Resp`. -/
structure PRequest : Type where
  Resp : PResponse

/-- `newRResponse` from the source. -/
def newRResponse (mtype : MergeType) : RResponse :=
  { respObj := none, mergeType := mtype }

/-- The inner loop of `mergeJoin`: `for idx, sub := range subs`, with
`idx` threaded explicitly.  A sub whose type assertion fails is skipped;
otherwise `rr.respObj.replace(idx, srr.respObj)`. -/
def mergeJoinLoop (obj : resp) : List PRequest → Nat → resp
  | [], _ => obj
  | sub :: rest, idx =>
    match sub.Resp.proto_ with
    | none => mergeJoinLoop obj rest (idx + 1)
    | some srr => mergeJoinLoop (obj.replace idx srr.respObj) rest (idx + 1)

/-- `(*RResponse).mergeJoin` from the source. -/
def RResponse.mergeJoin (rr : RResponse) (subs : List PRequest) : RResponse :=
  let obj0 :=
    match rr.respObj with
    | none => newRespArrayWithCapcity subs.length
    | some o => o
  let obj1 :=
    if obj0.isNull then .mk obj0.rtype obj0.data (some (List.replicate subs.length none))
    else obj0
  { rr with respObj := some (mergeJoinLoop obj1 subs 0) }

/-- `(*RResponse).mergeCount` from the source: counts the subs whose
response error slot is nil — it never reads the integer replies. -/
def RResponse.mergeCount (rr : RResponse) (subs : List PRequest) : RResponse :=
  let count := (subs.filter (fun sub => sub.Resp.err = none)).length
  { rr with respObj := some (newRespInt count) }

/-- `(*RResponse).mergeOk` from the source. -/
def RResponse.mergeOk (rr : RResponse) (subs : List PRequest) : RResponse :=
  match subs with
  | [] => { rr with respObj := some (newRespString [79, 75]) }
  | sub :: rest =>
    if sub.Resp.err = none then rr.mergeOk rest
    else
      match sub.Resp.proto_ with
      | none => rr.mergeOk rest
      | some ssr => { rr with respObj := ssr.respObj }

/-- `(*RResponse).Merge` from the source, embedded as written.  In the
`basic` arm the source reads `srr, ok := subs[0].Resp.Proto().(*RResponse);
if ok { return }; rr.respObj = srr.respObj`: when the assertion succeeds
it returns with no assignment, and when it fails `srr` is nil, so the
assignment dereferences a nil pointer — modelled as `none`.  An empty
`subs` panics on the index, also `none`. -/
def RResponse.Merge (rr : RResponse) (subs : List PRequest) : Option RResponse :=
  match rr.mergeType with
  | .basic =>
    match subs with
    | [] => none
    | sub :: _ =>
      match sub.Resp.proto_ with
      | some _ => some rr
      | none => none
  | .join => some (rr.mergeJoin subs)
  | .count => some (rr.mergeCount subs)
  | .ok => some (rr.mergeOk subs)

/-- The reply object carried by a sub-request's response: the `respObj`
of the `RResponse` behind the type assertion, `none` when the assertion
fails (nil pointer). -/
def subReply (s : PRequest) : Option resp :=
  match s.Resp.proto_ with
  | none => none
  | some rr => rr.respObj

/-- A concrete `+OK` reply object. -/
def okResp : resp := newRespString [79, 75]

/-- A sub-request whose response's type assertion succeeds, carrying
`okResp` as its reply; merge rule `basic`. -/
def subBasic : PRequest :=
  { Resp := { proto_ := some { respObj := some okResp, mergeType := .basic }, err := none } }

/-- A sub-request carrying a RESP integer reply `:v` with no error. -/
def subInt (v : Nat) : PRequest :=
  { Resp := { proto_ := some { respObj := some (.mk respInt (some (itoaBytes v)) none),
                               mergeType := .count },
              err := none } }

/-! ## Redis node connection (`proto/redis`, node_conn.go) -/

/-- Modelled from the spec: a message as the redis node connection sees
it (missing `proto.Message` and redis `Request` types).  `assertOk` is
the `m.Request().(*Request)` type assertion, `support`/`ctl` the
command-table category flags (§4.2), `encodeRes` the outcome of
`req.resp.encode(nc.bw)` into the buffered writer, `written` the
`MarkWrite` mark and `doneErr` the error slot set by `DoneWithError`. -/
structure WMsg : Type where
  assertOk : Bool
  support : Bool
  ctl : Bool
  encodeRes : Option RErr
  written : Bool
  doneErr : Option RErr
deriving DecidableEq

/-- The skip condition of the node-connection writer and reader:
`!req.isSupport() || req.isCtl()`. -/
def WMsg.skip (m : WMsg) : Bool := !m.support || m.ctl

/-- The message loop of `(*nodeConn).WriteBatch`: in batch order, fail
the batch on a bad assertion, skip unsupported/control requests, encode
the rest marking them written, and on the first encode error mark that
message done-with-error and stop.  Returns the updated messages and the
loop's error. -/
def writeBatchLoop : List WMsg → List WMsg × Option RErr
  | [] => ([], none)
  | m :: rest =>
    if !m.assertOk then
      ({ m with doneErr := some .badAssert } :: rest, some .badAssert)
    else if m.skip then
      let (r, e) := writeBatchLoop rest
      (m :: r, e)
    else
      match m.encodeRes with
      | some e => ({ m with doneErr := some e } :: rest, some e)
      | none =>
        let (r, e) := writeBatchLoop rest
        ({ m with written := true } :: r, e)

/-- The redis node connection's two-state atomic: `state : uint32`,
`false` = `opened`, `true` = `closed`. -/
structure RNodeConn : Type where
  stateClosed : Bool

/-- `(*nodeConn).WriteBatch` (redis): the loop, then `nc.bw.Flush()`
whose outcome is `flushRes`.  Note the source never reads `nc.state`. -/
def RNodeConn.WriteBatch (_nc : RNodeConn) (mb : List WMsg) (flushRes : Option RErr) :
    List WMsg × Option RErr :=
  let (msgs, e) := writeBatchLoop mb
  match e with
  | some err => (msgs, some err)
  | none => (msgs, flushRes)

/-- `(*nodeConn).Close` (redis): CAS `opened→closed`; on success returns
`nc.conn.Close()` (outcome `connCloseRes`), otherwise nil. -/
def RNodeConn.Close (nc : RNodeConn) (connCloseRes : Option RErr) :
    Option RErr × RNodeConn :=
  if nc.stateClosed = false then (connCloseRes, { stateClosed := true })
  else (none, nc)

/-- Modelled from the spec: a message as `ReadBatch` sees it; `readAt`
records, at the point the source calls `m.MarkRead()`, the reply-buffer
offset at which this message's reply was decoded (the source records a
timestamp; the offset is the observation the attribution claim needs). -/
structure RMsg : Type where
  assertOk : Bool
  support : Bool
  ctl : Bool
  readAt : Option Nat
deriving DecidableEq

/-- The skip condition, as for the writer. -/
def RMsg.skip (m : RMsg) : Bool := !m.support || m.ctl

/-- Modelled from the spec: the reply decoder (`req.reply.decode`) over
the §4.1 reader contract.  `declen p` is the byte length of the reply
that starts at buffer offset `p`; a decode attempt at position `now`
with `w` buffered bytes succeeds exactly when the whole reply is
buffered, else it fails with the buffer-incomplete sentinel.  On that
sentinel the source rewinds to `begin` (`nc.br.AdvanceTo(begin)`), calls
`nc.br.Read()` — which appends the next chunk of `supply` and fails with
an I/O error when the socket yields nothing — then re-positions at `now`
(`nc.br.AdvanceTo(now)`) and retries the same decode.  The position the
retried decode runs at is therefore `now`, the start of the current
reply. -/
def tryDecode (declen : Nat → Nat) (now : Nat) : Nat → List Nat → Except RErr (Nat × Nat × List Nat)
  | w, supply =>
    if now + declen now ≤ w then .ok (now + declen now, w, supply)
    else
      match supply with
      | [] => .error (.ioFail 0)
      | c :: rest => tryDecode declen now (w + c) rest

/-- `(*nodeConn).ReadBatch` (redis), messages `mb.Nth(0) … mb.Nth(count-1)`
in batch order with the reader positioned at `now` and `w` bytes
buffered: fail on a bad assertion, skip unsupported/control messages
without touching the reader, otherwise decode one reply via `tryDecode`,
mark the message read and advance `now` past the decoded reply.  Returns
the updated messages and the final reader state. -/
def readBatchGo (declen : Nat → Nat) :
    List RMsg → Nat → Nat → List Nat → Except RErr (List RMsg × Nat × Nat × List Nat)
  | [], now, w, supply => .ok ([], now, w, supply)
  | m :: rest, now, w, supply =>
    if !m.assertOk then .error .badAssert
    else if m.skip then
      match readBatchGo declen rest now w supply with
      | .error e => .error e
      | .ok (ms, n2, w2, s2) => .ok (m :: ms, n2, w2, s2)
    else
      match tryDecode declen now w supply with
      | .error e => .error e
      | .ok (pos2, w2, s2) =>
        match readBatchGo declen rest pos2 w2 s2 with
        | .error e => .error e
        | .ok (ms, n2, w3, s3) => .ok ({ m with readAt := some now } :: ms, n2, w3, s3)

/-- Specification of reply attribution: the offset at which each
message's reply begins, walking the batch in order from position `pos`
and laying the replies of the non-skipped messages end to end. -/
def replyStarts (declen : Nat → Nat) (pos : Nat) : List RMsg → List (Option Nat)
  | [] => []
  | m :: rest =>
    if m.skip then none :: replyStarts declen pos rest
    else some pos :: replyStarts declen (pos + declen pos) rest

/-! ## Memcache node connection (`proto/memcache`, node_conn.go) -/

/-- The memcache node connection's two-state atomic (`closed : int32`). -/
structure McNodeConn : Type where
  closedFlag : Bool

/-- `(*nodeConn).Closed` (memcache). -/
def McNodeConn.Closed (n : McNodeConn) : Bool := n.closedFlag

/-- `(*nodeConn).Close` (memcache): CAS `opening→closed`; on success
returns `n.conn.Close()` (outcome `connCloseRes`), otherwise nil. -/
def McNodeConn.Close (n : McNodeConn) (connCloseRes : Option RErr) :
    Option RErr × McNodeConn :=
  if n.closedFlag = false then (connCloseRes, { closedFlag := true })
  else (none, n)

/-- `(*nodeConn).Ping` (memcache): when closed returns `io.EOF`,
otherwise the pinger's result (the pinger body does socket I/O, passed
in as `pingerRes`). -/
def McNodeConn.Ping (n : McNodeConn) (pingerRes : Option RErr) : Option RErr :=
  if n.Closed then some .eof else pingerRes

/-- `(*nodeConn).Write` (memcache): when closed returns `ErrClosed`,
otherwise the encode-and-flush body's result, passed in as `rest`. -/
def McNodeConn.Write (n : McNodeConn) (rest : Option RErr) : Option RErr :=
  if n.Closed then some .closed else rest

/-- `(*nodeConn).Read` (memcache): when closed returns `ErrClosed`,
otherwise the decode body's result, passed in as `rest`. -/
def McNodeConn.Read (n : McNodeConn) (rest : Option RErr) : Option RErr :=
  if n.Closed then some .closed else rest

/-! ## Buffered vectored writer (`lib/bufio`, io.go) -/

/-- `bufio.Writer`: the queued slice vector (`bufs net.Buffers`) and the
sticky error slot (`err`).  Error values are identified by `Nat` codes. -/
structure BWriter : Type where
  bufs : List (List Nat)
  werr : Option Nat
deriving DecidableEq

/-- `(*Writer).Flush`: returns the sticky error if set; nothing to do on
an empty vector; otherwise one scatter-gather `bufs.WriteTo(w.wr)` whose
outcome is `res` — on failure the error is recorded in `w.err` — then
the vector is cleared and `w.err` returned. -/
def BWriter.Flush (w : BWriter) (res : Option Nat) : Option Nat × BWriter :=
  match w.werr with
  | some e => (some e, w)
  | none =>
    if w.bufs.length = 0 then (none, w)
    else
      match res with
      | none => (none, { w with bufs := [] })
      | some e => (some e, { bufs := [], werr := some e })

/-- `(*Writer).Write`: returns the sticky error if set; a nil slice is a
no-op; with 10 queued slices an implicit `Flush` (outcome `res`) runs,
its result discarded; the slice is appended and nil returned. -/
def BWriter.Write (w : BWriter) (p : Option (List Nat)) (res : Option Nat) :
    Option Nat × BWriter :=
  match w.werr with
  | some e => (some e, w)
  | none =>
    match p with
    | none => (none, w)
    | some bs =>
      let w1 := if w.bufs.length = 10 then (w.Flush res).2 else w
      (none, { w1 with bufs := w1.bufs ++ [bs] })

/-- A call against the writer, with the outcome of the underlying
socket write should one be issued. -/
inductive WOp : Type where
  | writeOp (p : Option (List Nat)) (res : Option Nat)
  | flushOp (res : Option Nat)
deriving DecidableEq

/-- Run a sequence of calls, collecting each call's returned error. -/
def runWriter (w : BWriter) : List WOp → List (Option Nat) × BWriter
  | [] => ([], w)
  | op :: rest =>
    let step :=
      match op with
      | .writeOp p res => w.Write p res
      | .flushOp res => w.Flush res
    let (rs, w2) := runWriter step.2 rest
    (step.1 :: rs, w2)

/-! ## Connection handler (`proxy/handler.go`) -/

/-- The observable actions of one `(*Handler).handle` frame: waiting on
the per-batch latches, `h.pc.Encode(msg)` for one message, and
`h.pc.Flush()` on the client connection. -/
inductive HEvent : Type where
  | waitAll
  | encodeResp (msg : Nat)
  | flushClient
deriving DecidableEq

/-- The encode loop of step 4 of `(*Handler).handle`: for each decoded
message in order, encode it into the client writer's queue; on an encode
error the source flushes and aborts the connection.  Messages are
identified by `Nat`; the codec's `Encode` is the parameter `enc`. -/
def encodeLoop (enc : Nat → Except RErr (List Nat)) :
    List Nat → List (List Nat) → List HEvent × Except RErr (List (List Nat))
  | [], queue => ([], .ok queue)
  | msg :: rest, queue =>
    match enc msg with
    | .error e => ([.encodeResp msg, .flushClient], .error e)
    | .ok bs =>
      let (tr, r) := encodeLoop enc rest (queue ++ [bs])
      (.encodeResp msg :: tr, r)

/-- One iteration of `(*Handler).handle` from step 3 on, after `Decode`
produced the frame's messages `msgs`: wait until every batch latch
reaches zero, encode each message in decode order, then flush the client
writer.  Returns the frame's event trace and the queued responses. -/
def handleFrame (enc : Nat → Except RErr (List Nat)) (msgs : List Nat) :
    List HEvent × Except RErr (List (List Nat)) :=
  let (tr, r) := encodeLoop enc msgs []
  match r with
  | .error e => (HEvent.waitAll :: tr, .error e)
  | .ok queue => (HEvent.waitAll :: tr ++ [HEvent.flushClient], .ok queue)

/-! ## Adaptive concurrency (`proxy/handler.go`) -/

/-- `defaultConcurrent`. -/
def defaultConcurrent : Nat := 2

/-- `maxConcurrent`. -/
def maxConcurrent : Nat := 1024

/-- `(*Handler).resetMaxConcurrent`, as the new slot count: with
`lm = len(msgs)` the current slot count and `lastCount` the number of
messages the last frame decoded, the count doubles when the frame was
full and the count is below `maxConcurrent`, else stays. -/
def resetMaxConcurrent (lm lastCount : Nat) : Nat :=
  if lm < maxConcurrent ∧ lm = lastCount then lm * 2 else lm

/-- Slot counts a connection can reach: `defaultConcurrent` initially,
then one `resetMaxConcurrent` per frame. -/
inductive ConcurrentReachable : Nat → Prop where
  | init : ConcurrentReachable defaultConcurrent
  | step (lm lastCount : Nat) :
      ConcurrentReachable lm → ConcurrentReachable (resetMaxConcurrent lm lastCount)

/-! ## MsgBatch (`proto`, msg_batch.go) -/

/-- `proto.MsgBatch` restricted to the fields its container operations
touch: the backing message slice and the live count.  Messages are
identified by `Nat`. -/
structure MsgBatch : Type where
  msgs : List Nat
  count : Nat
deriving DecidableEq

/-- `(*MsgBatch).AddMsg`: append when the backing slice is full,
overwrite the slot at `count` otherwise; either way bump `count`. -/
def MsgBatch.AddMsg (m : MsgBatch) (msg : Nat) : MsgBatch :=
  if m.msgs.length ≤ m.count then { msgs := m.msgs ++ [msg], count := m.count + 1 }
  else { msgs := m.msgs.set m.count msg, count := m.count + 1 }

/-- `(*MsgBatch).Count`. -/
def MsgBatch.Count (m : MsgBatch) : Nat := m.count

/-- `(*MsgBatch).Nth`: `m.msgs[i]` when `i < m.count`, nil otherwise.
The source indexes the slice directly; the safe `get?` stands in, and
the container theorem shows the access is in bounds. -/
def MsgBatch.Nth (m : MsgBatch) (i : Nat) : Option Nat :=
  if i < m.count then m.msgs.get? i else none

/-- `(*MsgBatch).Reset`: count back to zero, backing slice kept. -/
def MsgBatch.Reset (m : MsgBatch) : MsgBatch := { m with count := 0 }

/-- `(*MsgBatch).Msgs`: `m.msgs[:m.count]`. -/
def MsgBatch.Msgs (m : MsgBatch) : List Nat := m.msgs.take m.count

end Overlord

namespace Overlord

/-! ## Theorems: the merge rules -/

theorem set_append_cons {α : Type _} (pre : List α) (x v : α) (l : List α) :
    (pre ++ x :: l).set pre.length v = pre ++ v :: l := by
  induction pre with
  | nil => rfl
  | cons a pre ih => simp [List.set, ih]

theorem mergeJoinLoop_spec (subs : List PRequest) :
    ∀ (pre : List (Option resp)) (t : Nat) (d : Option (List Nat)),
      mergeJoinLoop (.mk t d (some (pre ++ List.replicate subs.length none))) subs pre.length
        = .mk t d (some (pre ++ subs.map subReply)) := by
  induction subs with
  | nil => intro pre t d; simp [mergeJoinLoop]
  | cons sub rest ih =>
    intro pre t d
    match hs : sub.Resp.proto_ with
    | none =>
      have hrep : pre ++ List.replicate (rest.length + 1) none
          = (pre ++ [none]) ++ List.replicate rest.length (none : Option resp) := by
        simp [List.replicate_succ]
      have hlen : (pre ++ [(none : Option resp)]).length = pre.length + 1 := by simp
      simp only [List.length_cons, mergeJoinLoop, hs, hrep]
      have := ih (pre ++ [none]) t d
      rw [hlen] at this
      rw [this]
      simp [subReply, hs]
    | some srr =>
      have hrep : pre ++ List.replicate (rest.length + 1) none
          = pre ++ (none : Option resp) :: List.replicate rest.length none := by
        simp [List.replicate_succ]
      simp only [List.length_cons, mergeJoinLoop, hs, hrep]
      have hset : (pre ++ (none : Option resp) :: List.replicate rest.length none).set
          pre.length srr.respObj
          = (pre ++ [srr.respObj]) ++ List.replicate rest.length none := by
        rw [set_append_cons]; simp
      simp only [resp.replace, resp.rtype, resp.data, resp.array, Option.map_some', hset]
      have hlen : (pre ++ [srr.respObj]).length = pre.length + 1 := by simp
      have := ih (pre ++ [srr.respObj]) t d
      rw [hlen] at this
      rw [this]
      simp [subReply, hs]

/-- C1: evaluation of `Merge` (rule `basic`) at a sub-request list whose
first sub-response passes the `(*RResponse)` type assertion and carries
`+OK`.  The source's inverted guard (`if ok { return }`) makes `Merge`
return with the parent's `respObj` still nil — the sub-response is
dropped exactly when the assertion succeeds, contradicting the claim
that it is assigned; and with a failing assertion the source would
dereference a nil pointer (modelled `none`). -/
theorem merge_basic_drops_subresponse :
    (newRResponse MergeType.basic).Merge [subBasic]
        = some { respObj := none, mergeType := MergeType.basic }
      ∧ subBasic.Resp.proto_
        = some { respObj := some okResp, mergeType := MergeType.basic }
      ∧ (newRResponse MergeType.basic).Merge
          [{ Resp := { proto_ := none, err := none } }] = none := by
  exact ⟨rfl, rfl, rfl⟩

/-- C2: evaluation of `Merge` (rule `count`) at three integer sub-replies
`:1`, `:0`, `:1`, none carrying an error.  The source counts the
sub-responses whose error slot is nil (3) instead of summing the integer
replies (2), and `newRespInt` tags the result with the array type byte
`'*'` instead of `':'`; the client-visible reply is therefore `*3`, not
the `:2` the claim states. -/
theorem merge_count_counts_subs_not_sum :
    (newRResponse MergeType.count).Merge [subInt 1, subInt 0, subInt 1]
        = some { respObj := some (.mk respArray (some (itoaBytes 3)) none),
                 mergeType := MergeType.count }
      ∧ itoaBytes 3 ≠ itoaBytes 2
      ∧ respArray ≠ respInt := by
  refine ⟨rfl, ?_, by decide⟩
  decide

/-- C8: for every sub-request list whose responses all pass the
`(*RResponse)` type assertion, `Merge` with rule `join` produces a RESP
array (`'*'`) whose length equals the number of sub-requests and whose
`i`-th element is the reply object of the `i`-th sub-request — original
order is preserved. -/
theorem merge_join_ordered (subs : List PRequest)
    (h : ∀ s ∈ subs, s.Resp.proto_.isSome) :
    ∃ arr : List (Option resp),
      (newRResponse MergeType.join).Merge subs
          = some { respObj := some (resp.mk respArray none (some arr)),
                   mergeType := MergeType.join }
        ∧ arr.length = subs.length
        ∧ ∀ i : Fin subs.length, arr.get? i.val = some (subReply (subs.get i)) := by
  refine ⟨subs.map subReply, ?_, by simp, ?_⟩
  · have hloop := mergeJoinLoop_spec subs [] respArray none
    simp only [List.nil_append, List.length_nil] at hloop
    simp only [RResponse.Merge, newRResponse, RResponse.mergeJoin, newRespArrayWithCapcity,
      resp.isNull, resp.rtype, resp.array, resp.data]
    simp [hloop]
  · intro i
    rw [List.get?_map, List.get?_eq_get i.isLt]
    rfl

/-! ## Theorems: node-connection batches -/

/-- A message the write loop processes without error: its assertion
succeeds and it is either skipped or encodes cleanly. -/
def WMsg.procOk (m : WMsg) : Prop :=
  m.assertOk = true ∧ (m.skip = true ∨ m.encodeRes = none)

/-- The mark `WriteBatch` leaves on a message it does not fail on:
skipped messages untouched, encoded messages marked written. -/
def WMsg.markWritten (m : WMsg) : WMsg :=
  if m.skip then m else { m with written := true }

theorem writeBatchLoop_clean (mb : List WMsg)
    (h : ∀ m ∈ mb, m.procOk) :
    writeBatchLoop mb = (mb.map WMsg.markWritten, none) := by
  induction mb with
  | nil => rfl
  | cons m rest ih =>
    obtain ⟨ha, hse⟩ := h m (by simp)
    have hrest := ih (fun x hx => h x (by simp [hx]))
    by_cases hs : m.skip = true
    · simp [writeBatchLoop, ha, hs, hrest, WMsg.markWritten]
    · have he : m.encodeRes = none := by
        rcases hse with h1 | h1
        · exact absurd h1 hs
        · exact h1
      simp [writeBatchLoop, ha, hs, he, hrest, WMsg.markWritten]

theorem writeBatchLoop_firstErr (pre : List WMsg) (m : WMsg) (post : List WMsg) (e : RErr)
    (hpre : ∀ x ∈ pre, x.procOk)
    (hm : (m.assertOk = false ∧ e = .badAssert)
        ∨ (m.assertOk = true ∧ m.skip = false ∧ m.encodeRes = some e)) :
    writeBatchLoop (pre ++ m :: post)
      = (pre.map WMsg.markWritten ++ { m with doneErr := some e } :: post, some e) := by
  induction pre with
  | nil =>
    rcases hm with ⟨ha, he⟩ | ⟨ha, hs, he⟩
    · subst he; simp [writeBatchLoop, ha]
    · simp [writeBatchLoop, ha, hs, he]
  | cons x pre ih =>
    obtain ⟨ha, hse⟩ := hpre x (by simp)
    have hrest := ih (fun y hy => hpre y (by simp [hy]))
    by_cases hs : x.skip = true
    · simp [writeBatchLoop, ha, hs, hrest, WMsg.markWritten]
    · have he : x.encodeRes = none := by
        rcases hse with h1 | h1
        · exact absurd h1 hs
        · exact h1
      simp [writeBatchLoop, ha, hs, he, hrest, WMsg.markWritten]

/-- C5: `WriteBatch` visits the batch in order.  If every message passes
its assertion and either is skipped (unsupported or control: not
encoded, not marked written) or encodes cleanly (marked written), the
whole batch is processed and the result is the flush outcome.  If the
messages up to the first offender are clean and the offender either
fails its assertion (`ErrBadAssert`) or fails to encode, exactly that
message is marked done-with-error, the messages after it are untouched,
and that error is returned. -/
theorem write_batch_spec :
    (∀ (nc : RNodeConn) (mb : List WMsg) (flushRes : Option RErr),
        (∀ m ∈ mb, m.procOk) →
        nc.WriteBatch mb flushRes = (mb.map WMsg.markWritten, flushRes))
  ∧ (∀ (nc : RNodeConn) (pre : List WMsg) (m : WMsg) (post : List WMsg)
        (flushRes : Option RErr) (e : RErr),
        (∀ x ∈ pre, x.procOk) →
        ((m.assertOk = false ∧ e = .badAssert)
          ∨ (m.assertOk = true ∧ m.skip = false ∧ m.encodeRes = some e)) →
        nc.WriteBatch (pre ++ m :: post) flushRes
          = (pre.map WMsg.markWritten ++ { m with doneErr := some e } :: post, some e)) := by
  constructor
  · intro nc mb flushRes h
    simp [RNodeConn.WriteBatch, writeBatchLoop_clean mb h]
  · intro nc pre m post flushRes e hpre hm
    simp [RNodeConn.WriteBatch, writeBatchLoop_firstErr pre m post e hpre hm]

/-- Closed instance discharging `write_batch_spec`'s hypotheses: a clean
batch of a control message and an encodable one, and a batch whose
second message fails to encode. -/
theorem write_batch_spec_witness :
    RNodeConn.WriteBatch { stateClosed := false }
        [{ assertOk := true, support := true, ctl := true, encodeRes := none,
           written := false, doneErr := none },
         { assertOk := true, support := true, ctl := false, encodeRes := none,
           written := false, doneErr := none }] none
      = ([{ assertOk := true, support := true, ctl := true, encodeRes := none,
            written := false, doneErr := none },
          { assertOk := true, support := true, ctl := false, encodeRes := none,
            written := true, doneErr := none }], none)
  ∧ RNodeConn.WriteBatch { stateClosed := false }
        [{ assertOk := true, support := true, ctl := false, encodeRes := none,
           written := false, doneErr := none },
         { assertOk := true, support := true, ctl := false, encodeRes := some (.enc 7),
           written := false, doneErr := none },
         { assertOk := true, support := true, ctl := false, encodeRes := none,
           written := false, doneErr := none }] none
      = ([{ assertOk := true, support := true, ctl := false, encodeRes := none,
            written := true, doneErr := none },
          { assertOk := true, support := true, ctl := false, encodeRes := some (.enc 7),
            written := false, doneErr := some (.enc 7) },
          { assertOk := true, support := true, ctl := false, encodeRes := none,
            written := false, doneErr := none }], some (.enc 7)) := by
  constructor
  · exact write_batch_spec.1 _ _ _ (by
      intro m hm
      fin_cases hm <;> exact ⟨rfl, Or.inr rfl⟩)
  · exact write_batch_spec.2 { stateClosed := false }
      [{ assertOk := true, support := true, ctl := false, encodeRes := none,
         written := false, doneErr := none }]
      { assertOk := true, support := true, ctl := false, encodeRes := some (.enc 7),
        written := false, doneErr := none }
      [{ assertOk := true, support := true, ctl := false, encodeRes := none,
         written := false, doneErr := none }] none (.enc 7)
      (by intro x hx; fin_cases hx; exact ⟨rfl, Or.inr rfl⟩)
      (Or.inr ⟨rfl, rfl, rfl⟩)

theorem tryDecode_ok_pos (declen : Nat → Nat) (now : Nat) :
    ∀ (supply : List Nat) (w p w2 : Nat) (s2 : List Nat),
      tryDecode declen now w supply = .ok (p, w2, s2) → p = now + declen now := by
  intro supply
  induction supply with
  | nil =>
    intro w p w2 s2 h
    rw [tryDecode] at h
    split at h
    · cases h; rfl
    · cases h
  | cons c rest ih =>
    intro w p w2 s2 h
    rw [tryDecode] at h
    split at h
    · cases h; rfl
    · exact ih (w + c) p w2 s2 h

/-- C4: the buffer-incomplete retry.  First conjunct: when the current
reply (starting at offset `now`) is not fully buffered, the retry after
one `Read()` decodes again at `now` — the start of the current reply,
with more bytes — not at the start of the batch.  Second conjunct: on a
successful `ReadBatch`, the recorded decode offsets of the messages are
exactly `replyStarts`: the non-skipped messages' replies are laid end to
end in batch order, so no already-decoded reply is ever re-decoded and
the `i`-th successful reply is attributed to the `i`-th non-skipped
message. -/
theorem read_batch_retry_and_attribution (declen : Nat → Nat) :
    (∀ (now w c : Nat) (rest : List Nat), w < now + declen now →
        tryDecode declen now w (c :: rest) = tryDecode declen now (w + c) rest)
  ∧ (∀ (msgs : List RMsg) (now w : Nat) (supply : List Nat)
        (out : List RMsg) (st : Nat × Nat × List Nat),
        (∀ m ∈ msgs, m.readAt = none) →
        readBatchGo declen msgs now w supply = .ok (out, st) →
        out.map RMsg.readAt = replyStarts declen now msgs) := by
  constructor
  · intro now w c rest h
    rw [tryDecode, if_neg (by omega)]
  · intro msgs
    induction msgs with
    | nil =>
      intro now w supply out st _ h
      rw [readBatchGo] at h
      cases h
      rfl
    | cons m rest ih =>
      intro now w supply out st hclean h
      have hm : m.readAt = none := hclean m (by simp)
      have hrest : ∀ x ∈ rest, x.readAt = none := fun x hx => hclean x (by simp [hx])
      rw [readBatchGo] at h
      by_cases ha : m.assertOk = true
      · rw [if_neg (by simp [ha])] at h
        by_cases hs : m.skip = true
        · rw [if_pos hs] at h
          cases hrec : readBatchGo declen rest now w supply with
          | error e => simp only [hrec] at h; exact Except.noConfusion h
          | ok r =>
            obtain ⟨ms, st'⟩ := r
            simp only [hrec] at h
            rw [Except.ok.injEq, Prod.mk.injEq] at h
            obtain ⟨h1, _⟩ := h
            subst h1
            simp only [List.map_cons, replyStarts]
            rw [if_pos hs, hm, ih now w supply ms st' hrest hrec]
        · rw [if_neg hs] at h
          cases hdec : tryDecode declen now w supply with
          | error e => simp only [hdec] at h; exact Except.noConfusion h
          | ok r =>
            obtain ⟨pos2, w2, s2⟩ := r
            simp only [hdec] at h
            have hpos : pos2 = now + declen now :=
              tryDecode_ok_pos declen now supply w pos2 w2 s2 hdec
            cases hrec : readBatchGo declen rest pos2 w2 s2 with
            | error e => simp only [hrec] at h; exact Except.noConfusion h
            | ok r2 =>
              obtain ⟨ms, st'⟩ := r2
              simp only [hrec] at h
              rw [Except.ok.injEq, Prod.mk.injEq] at h
              obtain ⟨h1, _⟩ := h
              subst h1
              simp only [List.map_cons, replyStarts]
              rw [if_neg hs]
              have hih := ih pos2 w2 s2 ms st' hrest hrec
              rw [hpos] at hih
              simp [hih]
      · rw [if_pos (by simp [ha])] at h
        cases h

/-- Closed instance discharging `read_batch_retry_and_attribution`'s
hypotheses: replies of 2 bytes each, a batch of a supported message, an
unsupported (skipped) one and another supported one, one buffered byte
and two socket chunks; the first reply is attributed to offset 0 and
the second supported message's to offset 2. -/
theorem read_batch_retry_and_attribution_witness :
    ([{ assertOk := true, support := true, ctl := false, readAt := some 0 },
      { assertOk := true, support := false, ctl := false, readAt := none },
      { assertOk := true, support := true, ctl := false, readAt := some 2 }] :
        List RMsg).map RMsg.readAt
      = replyStarts (fun _ => 2) 0
          [{ assertOk := true, support := true, ctl := false, readAt := none },
           { assertOk := true, support := false, ctl := false, readAt := none },
           { assertOk := true, support := true, ctl := false, readAt := none }] :=
  (read_batch_retry_and_attribution (fun _ => 2)).2
    [{ assertOk := true, support := true, ctl := false, readAt := none },
     { assertOk := true, support := false, ctl := false, readAt := none },
     { assertOk := true, support := true, ctl := false, readAt := none }]
    0 1 [1, 2] _ (4, 4, []) (by decide) rfl

/-- C6 counterexample: a redis node connection freshly closed by
`Close()` still happily processes `WriteBatch`: the source's
`WriteBatch` never consults the `open|closed` state, so the supported
message is encoded and marked written and the call returns nil — not a
"closed" error as the claim states for every node connection. -/
theorem redis_write_after_close_not_closed_error :
    ((RNodeConn.Close { stateClosed := false } none).2).WriteBatch
        [{ assertOk := true, support := true, ctl := false, encodeRes := none,
           written := false, doneErr := none }] none
      = ([{ assertOk := true, support := true, ctl := false, encodeRes := none,
            written := true, doneErr := none }], none) := rfl

/-- C6 amended: both node connections close by an idempotent CAS
`open→closed` (the state never returns to open, a second `Close` is a
no-op returning nil).  After close, the memcache connection's `Write`
and `Read` return `ErrClosed` and `Ping` returns `io.EOF`; the redis
connection's `WriteBatch` does not consult the state — its result is
the same whatever the state — so it returns no closed error. -/
theorem node_conn_close_amended :
    (∀ (n : McNodeConn) (res : Option RErr),
        ((n.Close res).2).closedFlag = true
      ∧ (n.closedFlag = true → n.Close res = (none, n)))
  ∧ (∀ (nc : RNodeConn) (res : Option RErr),
        ((nc.Close res).2).stateClosed = true
      ∧ (nc.stateClosed = true → nc.Close res = (none, nc)))
  ∧ (∀ (rest : Option RErr),
        McNodeConn.Write { closedFlag := true } rest = some .closed
      ∧ McNodeConn.Read { closedFlag := true } rest = some .closed
      ∧ McNodeConn.Ping { closedFlag := true } rest = some .eof)
  ∧ (∀ (s1 s2 : Bool) (mb : List WMsg) (flushRes : Option RErr),
        RNodeConn.WriteBatch { stateClosed := s1 } mb flushRes
          = RNodeConn.WriteBatch { stateClosed := s2 } mb flushRes) := by
  refine ⟨?_, ?_, ?_, ?_⟩
  · intro n res
    constructor
    · cases n with
      | mk f => cases f <;> simp [McNodeConn.Close]
    · intro h
      simp [McNodeConn.Close, h]
  · intro nc res
    constructor
    · cases nc with
      | mk f => cases f <;> simp [RNodeConn.Close]
    · intro h
      simp [RNodeConn.Close, h]
  · intro rest
    exact ⟨rfl, rfl, rfl⟩
  · intro s1 s2 mb flushRes
    rfl

/-- Closed instance discharging `node_conn_close_amended`'s hypotheses:
a second close of an already-closed memcache connection is a nil no-op,
and likewise for the redis connection. -/
theorem node_conn_close_amended_witness :
    McNodeConn.Close { closedFlag := true } (some (.ioFail 3))
        = (none, { closedFlag := true })
  ∧ RNodeConn.Close { stateClosed := true } (some (.ioFail 3))
        = (none, { stateClosed := true }) :=
  ⟨(node_conn_close_amended.1 { closedFlag := true } (some (.ioFail 3))).2 rfl,
   (node_conn_close_amended.2.1 { stateClosed := true } (some (.ioFail 3))).2 rfl⟩

/-- Closed instance discharging `merge_join_ordered`'s hypothesis: two
sub-requests whose assertions succeed, carrying `+OK` and `:1`. -/
theorem merge_join_ordered_witness :
    ∃ arr : List (Option resp),
      (newRResponse MergeType.join).Merge [subBasic, subInt 1]
          = some { respObj := some (resp.mk respArray none (some arr)),
                   mergeType := MergeType.join }
        ∧ arr.length = [subBasic, subInt 1].length
        ∧ ∀ i : Fin ([subBasic, subInt 1] : List PRequest).length,
            arr.get? i.val = some (subReply (([subBasic, subInt 1] : List PRequest).get i)) := by
  exact merge_join_ordered [subBasic, subInt 1] (by intro s hs; fin_cases hs <;> rfl)

/-! ## Theorems: the buffered writer -/

theorem writer_err_step (w : BWriter) (e : Nat) (hw : w.werr = some e) :
    (∀ p res, w.Write p res = (some e, w)) ∧ (∀ res, w.Flush res = (some e, w)) := by
  constructor
  · intro p res
    simp [BWriter.Write, hw]
  · intro res
    simp [BWriter.Flush, hw]

theorem runWriter_err (e : Nat) :
    ∀ (ops : List WOp) (w : BWriter), w.werr = some e →
      (∀ r ∈ (runWriter w ops).1, r = some e) := by
  intro ops
  induction ops with
  | nil =>
    intro w _ r hr
    simp [runWriter] at hr
  | cons op rest ih =>
    intro w hw r hr
    obtain ⟨hwrite, hflush⟩ := writer_err_step w e hw
    cases op with
    | writeOp p res =>
      simp only [runWriter, hwrite p res] at hr
      rcases List.mem_cons.mp hr with h1 | h1
      · exact h1
      · exact ih w hw r h1
    | flushOp res =>
      simp only [runWriter, hflush res] at hr
      rcases List.mem_cons.mp hr with h1 | h1
      · exact h1
      · exact ih w hw r h1

theorem flush_fail_sets_err (w : BWriter) (res : Option Nat) (e : Nat)
    (hw : w.werr = none) (hf : (w.Flush res).1 = some e) :
    ((w.Flush res).2).werr = some e := by
  by_cases hb : w.bufs.length = 0
  · simp [BWriter.Flush, hw, hb] at hf
  · cases res with
    | none => simp [BWriter.Flush, hw, hb] at hf
    | some x =>
      have hx : x = e := by simpa [BWriter.Flush, hw, hb] using hf
      simp [BWriter.Flush, hw, hb, hx]

/-- C9: once a `Flush` fails with error `e`, every later `Write` call and
every later `Flush` call returns `e`, whatever slices are written and
whatever the socket then does — the error is sticky and the writer never
recovers.  And a `Flush` with no queued slices and no prior error
returns nil and leaves the writer unchanged. -/
theorem writer_sticky_error :
    (∀ (w : BWriter) (res : Option Nat) (e : Nat),
        w.werr = none → (w.Flush res).1 = some e →
        ∀ (ops : List WOp), ∀ r ∈ (runWriter (w.Flush res).2 ops).1, r = some e)
  ∧ (∀ (w : BWriter) (res : Option Nat),
        w.werr = none → w.bufs = [] → w.Flush res = (none, w)) := by
  constructor
  · intro w res e hw hf ops r hr
    exact runWriter_err e ops (w.Flush res).2 (flush_fail_sets_err w res e hw hf) r hr
  · intro w res hw hb
    simp [BWriter.Flush, hw, hb]

/-- Closed instance discharging `writer_sticky_error`'s hypotheses: a
writer with one queued slice whose flush fails with error 5; the next
write (even one whose own socket outcome would succeed) and the next
flush both return 5; and an empty error-free writer flushes to nil. -/
theorem writer_sticky_error_witness :
    ((runWriter (BWriter.Flush { bufs := [[1]], werr := none } (some 5)).2
        [WOp.writeOp (some [2]) none, WOp.flushOp none]).1.getD 0 none = some 5)
  ∧ BWriter.Flush { bufs := [], werr := none } (some 7)
      = (none, { bufs := [], werr := none }) := by
  constructor
  · exact writer_sticky_error.1 { bufs := [[1]], werr := none } (some 5) 5 rfl rfl
      [WOp.writeOp (some [2]) none, WOp.flushOp none] _ (by decide)
  · exact writer_sticky_error.2 { bufs := [], werr := none } (some 7) rfl rfl

/-! ## Theorems: the handler frame -/

theorem encodeLoop_clean (enc : Nat → Except RErr (List Nat)) (val : Nat → List Nat) :
    ∀ (msgs : List Nat) (queue : List (List Nat)),
      (∀ m ∈ msgs, enc m = .ok (val m)) →
      encodeLoop enc msgs queue
        = (msgs.map HEvent.encodeResp, .ok (queue ++ msgs.map val)) := by
  intro msgs
  induction msgs with
  | nil => intro queue _; simp [encodeLoop]
  | cons msg rest ih =>
    intro queue h
    have hmsg := h msg (by simp)
    have hrest := ih (queue ++ [val msg]) (fun x hx => h x (by simp [hx]))
    simp [encodeLoop, hmsg, hrest]

/-- C3: for a frame of `m` decoded messages each of which encodes
cleanly, the handler first waits on every batch latch, then performs
exactly one encode per message, in decode order, then flushes the
client connection; the queued responses are the messages' encodings in
that same order — `m` responses for `m` requests. -/
theorem handler_frame_order (enc : Nat → Except RErr (List Nat)) (val : Nat → List Nat)
    (msgs : List Nat) (henc : ∀ m ∈ msgs, enc m = .ok (val m)) :
    handleFrame enc msgs
      = (HEvent.waitAll :: msgs.map HEvent.encodeResp ++ [HEvent.flushClient],
         .ok (msgs.map val))
  ∧ (msgs.map val).length = msgs.length := by
  constructor
  · simp [handleFrame, encodeLoop_clean enc val msgs [] henc]
  · simp

/-- Closed instance discharging `handler_frame_order`'s hypothesis: two
messages whose encodings both succeed. -/
theorem handler_frame_order_witness :
    handleFrame (fun m => .ok [m + 1]) [3, 4]
      = (HEvent.waitAll :: ([3, 4].map HEvent.encodeResp) ++ [HEvent.flushClient],
         .ok ([3, 4].map (fun m => [m + 1])))
  ∧ (([3, 4] : List Nat).map (fun m => [m + 1])).length = ([3, 4] : List Nat).length :=
  handler_frame_order (fun m => .ok [m + 1]) (fun m => [m + 1]) [3, 4]
    (fun _ _ => rfl)

/-! ## Theorems: adaptive concurrency -/

theorem concurrent_reachable_dvd (c : Nat) (h : ConcurrentReachable c) : c ∣ 1024 := by
  induction h with
  | init => decide
  | step lm lastCount _ ih =>
    rw [resetMaxConcurrent]
    split
    · rename_i hcond
      obtain ⟨hlt, _⟩ := hcond
      have ih2 : lm ∣ 2 ^ 10 := by
        have h2 : (2 : Nat) ^ 10 = 1024 := by norm_num
        rw [h2]
        exact ih
      obtain ⟨j, hj, hpow⟩ := (Nat.dvd_prime_pow Nat.prime_two).mp ih2
      have hj10 : j < 10 := by
        rcases Nat.lt_or_ge j 10 with h10 | h10
        · exact h10
        · exfalso
          have : j = 10 := le_antisymm hj h10
          rw [this] at hpow
          rw [hpow] at hlt
          exact absurd hlt (by rw [maxConcurrent]; decide)
      rw [hpow, show (1024 : Nat) = 2 ^ 10 from rfl]
      have : (2 : Nat) ^ j * 2 = 2 ^ (j + 1) := by ring
      rw [this]
      exact pow_dvd_pow 2 hj10
    · exact ih

/-- C7: over the slot counts a connection can actually reach (starting
at `defaultConcurrent`, stepping by `resetMaxConcurrent` once per
iteration), the new count never exceeds `maxConcurrent` (1024), never
shrinks, doubles exactly when the last frame filled every slot and the
count is below the cap, is unchanged on smaller frames, and remains
reachable. -/
theorem reset_max_concurrent_spec (lm lastCount : Nat) (h : ConcurrentReachable lm) :
    resetMaxConcurrent lm lastCount ≤ maxConcurrent
  ∧ lm ≤ resetMaxConcurrent lm lastCount
  ∧ (lm = lastCount → lm < maxConcurrent → resetMaxConcurrent lm lastCount = 2 * lm)
  ∧ (lm ≠ lastCount → resetMaxConcurrent lm lastCount = lm)
  ∧ ConcurrentReachable (resetMaxConcurrent lm lastCount) := by
  have hstep : ConcurrentReachable (resetMaxConcurrent lm lastCount) :=
    ConcurrentReachable.step lm lastCount h
  refine ⟨?_, ?_, ?_, ?_, hstep⟩
  · have hd := concurrent_reachable_dvd _ hstep
    rw [maxConcurrent]
    exact Nat.le_of_dvd (by decide) hd
  · rw [resetMaxConcurrent]
    split
    · omega
    · exact le_refl lm
  · intro heq hlt
    rw [resetMaxConcurrent, if_pos ⟨hlt, heq⟩]
    ring
  · intro hne
    rw [resetMaxConcurrent, if_neg (by intro hc; exact hne hc.2)]

/-- Closed instance discharging `reset_max_concurrent_spec`'s
hypotheses: the initial count 2 with a full frame doubles to 4, within
the cap and still reachable. -/
theorem reset_max_concurrent_spec_witness :
    resetMaxConcurrent 2 2 = 2 * 2
  ∧ resetMaxConcurrent 2 2 ≤ maxConcurrent
  ∧ ConcurrentReachable (resetMaxConcurrent 2 2) :=
  ⟨(reset_max_concurrent_spec 2 2 ConcurrentReachable.init).2.2.1 rfl (by decide),
   (reset_max_concurrent_spec 2 2 ConcurrentReachable.init).1,
   (reset_max_concurrent_spec 2 2 ConcurrentReachable.init).2.2.2.2⟩

/-! ## Theorems: MsgBatch -/

theorem addMsg_step (st : MsgBatch) (msg : Nat) (hinv : st.count ≤ st.msgs.length) :
    (st.AddMsg msg).count = st.count + 1
  ∧ (st.AddMsg msg).count ≤ (st.AddMsg msg).msgs.length
  ∧ (∀ i, i < st.count → (st.AddMsg msg).msgs.get? i = st.msgs.get? i)
  ∧ (st.AddMsg msg).msgs.get? st.count = some msg := by
  rw [MsgBatch.AddMsg]
  by_cases hc : st.msgs.length ≤ st.count
  · have heq : st.msgs.length = st.count := le_antisymm hc hinv
    rw [if_pos hc]
    refine ⟨rfl, by simpa using hinv, ?_, ?_⟩
    · intro i hi
      exact List.get?_append (by omega)
    · rw [← heq]
      exact List.get?_concat_length st.msgs msg
  · have hc2 : st.count < st.msgs.length := Nat.lt_of_not_le hc
    rw [if_neg hc]
    refine ⟨rfl, by simpa using hc2, ?_, ?_⟩
    · intro i hi
      exact List.get?_set_ne msg st.msgs (by omega)
    · exact List.get?_set_eq_of_lt msg hc2

theorem addMsg_fold (added : List Nat) :
    ∀ (st : MsgBatch), st.count ≤ st.msgs.length →
      ((added.foldl MsgBatch.AddMsg st).count = st.count + added.length)
    ∧ ((added.foldl MsgBatch.AddMsg st).count
        ≤ (added.foldl MsgBatch.AddMsg st).msgs.length)
    ∧ (∀ i, i < st.count →
        (added.foldl MsgBatch.AddMsg st).msgs.get? i = st.msgs.get? i)
    ∧ (∀ j, j < added.length →
        (added.foldl MsgBatch.AddMsg st).msgs.get? (st.count + j) = added.get? j) := by
  induction added with
  | nil =>
    intro st hinv
    exact ⟨rfl, hinv, fun i _ => rfl, fun j hj => absurd hj (by simp)⟩
  | cons a rest ih =>
    intro st hinv
    obtain ⟨hcnt, hinv2, hkeep, hat⟩ := addMsg_step st a hinv
    obtain ⟨ihcnt, ihinv, ihkeep, ihat⟩ := ih (st.AddMsg a) hinv2
    refine ⟨by simp [List.foldl_cons, ihcnt, hcnt]; omega, by simpa using ihinv, ?_, ?_⟩
    · intro i hi
      rw [List.foldl_cons, ihkeep i (by omega), hkeep i hi]
    · intro j hj
      cases j with
      | zero =>
        rw [List.foldl_cons, Nat.add_zero]
        rw [ihkeep st.count (by omega), hat]
        rfl
      | succ j' =>
        rw [List.foldl_cons]
        have : st.count + (j' + 1) = (st.AddMsg a).count + j' := by omega
        rw [this, ihat j' (by simpa using hj)]
        rfl

/-- C10: after `Reset`, a sequence of `k` `AddMsg` calls leaves
`Count() = k`; `Nth i` returns the `i`-th added message (and the
underlying slice access is in bounds) for every `i < k` and nil for
every `i ≥ k`; the live count never exceeds the backing slice; and
right after `Reset` the batch's `Msgs()` view is empty. -/
theorem msg_batch_spec (b : MsgBatch) (added : List Nat) :
    ((added.foldl MsgBatch.AddMsg b.Reset).Count = added.length)
  ∧ (∀ i, i < added.length →
        (added.foldl MsgBatch.AddMsg b.Reset).Nth i = added.get? i
      ∧ ((added.foldl MsgBatch.AddMsg b.Reset).Nth i).isSome)
  ∧ (∀ i, added.length ≤ i → (added.foldl MsgBatch.AddMsg b.Reset).Nth i = none)
  ∧ ((added.foldl MsgBatch.AddMsg b.Reset).count
      ≤ (added.foldl MsgBatch.AddMsg b.Reset).msgs.length)
  ∧ b.Reset.Msgs = [] := by
  obtain ⟨hcnt, hinv, _, hat⟩ := addMsg_fold added b.Reset (by simp [MsgBatch.Reset])
  have hcnt0 : (added.foldl MsgBatch.AddMsg b.Reset).count = added.length := by
    simpa [MsgBatch.Reset] using hcnt
  refine ⟨hcnt0, ?_, ?_, hinv, by simp [MsgBatch.Reset, MsgBatch.Msgs]⟩
  · intro i hi
    have hgot : (added.foldl MsgBatch.AddMsg b.Reset).msgs.get? i = added.get? i := by
      have := hat i hi
      simpa [MsgBatch.Reset] using this
    constructor
    · rw [MsgBatch.Nth, if_pos (by omega), hgot]
    · rw [MsgBatch.Nth, if_pos (by omega), hgot]
      simp [List.getElem?_eq_getElem hi]
  · intro i hi
    rw [MsgBatch.Nth, if_neg (by omega)]

/-- Closed instance discharging `msg_batch_spec`'s hypotheses: a batch
whose backing slice holds stale entries is reset and two messages are
added; `Nth` returns them in order and nil past the count. -/
theorem msg_batch_spec_witness :
    (([5, 7].foldl MsgBatch.AddMsg (MsgBatch.Reset { msgs := [9, 9, 9], count := 3 })).Count
        = [5, 7].length)
  ∧ (([5, 7].foldl MsgBatch.AddMsg (MsgBatch.Reset { msgs := [9, 9, 9], count := 3 })).Nth 1
        = [5, 7].get? 1)
  ∧ (([5, 7].foldl MsgBatch.AddMsg (MsgBatch.Reset { msgs := [9, 9, 9], count := 3 })).Nth 2
        = none) :=
  ⟨(msg_batch_spec { msgs := [9, 9, 9], count := 3 } [5, 7]).1,
   ((msg_batch_spec { msgs := [9, 9, 9], count := 3 } [5, 7]).2.1 1 (by decide)).1,
   (msg_batch_spec { msgs := [9, 9, 9], count := 3 } [5, 7]).2.2.1 2 (by decide)⟩

end Overlord
